import Mathlib

/-!
Verification development for two cryptographic cores of the LibSSH-ESP32
repository: the bcrypt-PBKDF key derivation function
(src/src/external/bcrypt_pbkdf.c) and the finite-field Diffie-Hellman key
agreement subsystem (src/src/dh.c).

The C code is shallowly embedded: machine integers become Nat (size_t and
uint32_t values stay far below their overflow bounds on every path that is
modelled, except where an explicit mod is noted), the caller-supplied output
buffer of bcrypt_pbkdf becomes a write log (a function from byte index to the
list of values written there, in order), and fallible C calls (allocations,
collaborator functions) become Boolean oracles threaded through the model.
The per-iteration 32-byte accumulator of bcrypt_pbkdf is abstracted as an
arbitrary function v : Nat -> Nat -> A giving byte i of outer iteration count,
since the placement claims are independent of the hash values.
-/

/-- Return code SSH_OK of the C sources. -/
def SSH_OK : Int := 0

/-- Return code SSH_ERROR of the C sources. -/
def SSH_ERROR : Int := -1

namespace BcryptPbkdf

/-- BCRYPT_BLOCKS from bcrypt_pbkdf.c. -/
def BCRYPT_BLOCKS : Nat := 8

/-- BCRYPT_HASHSIZE = BCRYPT_BLOCKS * 4, the sizeof the out buffer. -/
def BCRYPT_HASHSIZE : Nat := BCRYPT_BLOCKS * 4

/-- stride = (keylen + sizeof(out) - 1) / sizeof(out), from bcrypt_pbkdf. -/
def strideOf (keylen : Nat) : Nat := (keylen + BCRYPT_HASHSIZE - 1) / BCRYPT_HASHSIZE

/-- amt = (keylen + stride - 1) / stride, initial value, from bcrypt_pbkdf. -/
def amtOf (keylen : Nat) : Nat := (keylen + strideOf keylen - 1) / strideOf keylen

/-- One store key[dest] = x, recorded by appending to the write log of dest. -/
def keyWrite {α : Type} (key : Nat → List α) (dest : Nat) (x : α) : Nat → List α :=
  fun e => if e = dest then key dest ++ [x] else key e

/-- Inner placement loop of bcrypt_pbkdf:
for (i = 0; i < amt; i++) { dest = i*stride + (count-1);
  if (dest >= origkeylen) break; key[dest] = out[i]; }
The loop is driven structurally by rem, the remaining trip bound amt - i.
Returns the updated write log together with the final value of the loop
variable i, which the C code then subtracts from keylen. -/
def placeFrom {α : Type} (v : Nat → Nat → α) (S count K : Nat) :
    (Nat → List α) → Nat → Nat → ((Nat → List α) × Nat)
  | key, 0, i => (key, i)
  | key, rem + 1, i =>
      if K ≤ i * S + (count - 1) then (key, i)
      else placeFrom v S count K
        (keyWrite key (i * S + (count - 1)) (v count i)) rem (i + 1)

/-- Outer loop of bcrypt_pbkdf:
for (count = 1; keylen > 0; count++) { ... amt = MIN(amt, keylen);
  inner placement; keylen -= i; }
State is (write log, keylen, amt); fuel bounds the number of iterations
(the termination theorem shows fuel = stride suffices). -/
def keyLoop {α : Type} (v : Nat → Nat → α) (S K : Nat) :
    Nat → (Nat → List α) → Nat → Nat → Nat → ((Nat → List α) × Nat × Nat)
  | 0, key, amt, keylen, _count => (key, keylen, amt)
  | fuel + 1, key, amt, keylen, count =>
      if keylen = 0 then (key, keylen, amt)
      else
        let amt2 := min amt keylen
        let r := placeFrom v S count K key amt2 0
        keyLoop v S K fuel r.1 amt2 (keylen - r.2) (count + 1)

/-- bcrypt_pbkdf(pass, passlen, salt, saltlen, key, keylen, rounds), with the
hash pipeline abstracted into v (byte i of the XOR accumulator of outer
iteration count) and the two allocations (calloc for countsalt, malloc for the
Blowfish state) as Boolean oracles.  Returns the C return code and the final
write log of the caller buffer key. -/
def bcrypt_pbkdf {α : Type} (v : Nat → Nat → α) (callocOk mallocOk : Bool)
    (passlen saltlen keylen rounds : Nat) (key : Nat → List α) :
    Int × (Nat → List α) :=
  if rounds < 1 then (-1, key)
  else if passlen = 0 ∨ saltlen = 0 ∨ keylen = 0 ∨
      BCRYPT_HASHSIZE * BCRYPT_HASHSIZE < keylen ∨ 1 <<< 20 < saltlen then (-1, key)
  else if callocOk = false then (-1, key)
  else if mallocOk = false then (-1, key)
  else (0, (keyLoop v (strideOf keylen) keylen (strideOf keylen) key
              (amtOf keylen) keylen 1).1)

/-- State of the outer loop of bcrypt_pbkdf after c iterations on an accepted
input of length K, starting from an empty write log. -/
def pbkdfState {α : Type} (v : Nat → Nat → α) (K c : Nat) :
    ((Nat → List α) × Nat × Nat) :=
  keyLoop v (strideOf K) K c (fun _ => []) (amtOf K) K 1

/-- Total number of bytes stored into the first K cells of a write log. -/
def writeCount {α : Type} (K : Nat) (key : Nat → List α) : Nat :=
  ∑ e ∈ Finset.range K, (key e).length

/-- Number of loop indices i with i * S + r < K: the number of bytes the
inner loop can place for residue r before running off the end of the key. -/
def nIdx (S K r : Nat) : Nat := if r < K then (K - r - 1) / S + 1 else 0

/-- Write log after the first c residue classes have been filled: cell e holds
byte e / S of outer iteration e % S + 1 when e < K and e % S < c. -/
def interleave {α : Type} (v : Nat → Nat → α) (S K c : Nat)
    (key0 : Nat → List α) : Nat → List α :=
  fun e => if e < K ∧ e % S < c then key0 e ++ [v (e % S + 1) (e / S)] else key0 e

/-- Remaining keylen after the first c outer iterations. -/
def keylenAt (S K c : Nat) : Nat := ∑ r ∈ Finset.Ico c S, nIdx S K r

/-- One store out[d] = x into the 32-byte output of bcrypt_hash. -/
def outUpd (out : Nat → Nat) (d x : Nat) : Nat → Nat :=
  fun e => if e = d then x else out e

/-- Body of the copy-out loop of bcrypt_hash:
out[4*i+3] = (cdata[i] >> 24) & 0xff; ... out[4*i+0] = cdata[i] & 0xff. -/
def copyOutStep (cdata : Nat → Nat) (out : Nat → Nat) (i : Nat) : Nat → Nat :=
  outUpd (outUpd (outUpd (outUpd out
    (4 * i + 3) ((cdata i >>> 24) &&& 0xff))
    (4 * i + 2) ((cdata i >>> 16) &&& 0xff))
    (4 * i + 1) ((cdata i >>> 8) &&& 0xff))
    (4 * i + 0) (cdata i &&& 0xff)

/-- Copy-out phase of bcrypt_hash: for (i = 0; i < BCRYPT_BLOCKS; i++)
emit word cdata[i] into out in little-endian byte order. -/
def bcrypt_hash_copyout (cdata out0 : Nat → Nat) : Nat → Nat :=
  (List.range BCRYPT_BLOCKS).foldl (copyOutStep cdata) out0

end BcryptPbkdf

namespace DH

/-- Byte string p_group14_value from dh.c (256 bytes, big-endian prime of group 14). -/
def p_group14_value : List Nat :=
  [0xFF, 0xFF, 0xFF, 0xFF, 0xFF, 0xFF, 0xFF, 0xFF, 0xC9, 0x0F, 0xDA, 0xA2,
   0x21, 0x68, 0xC2, 0x34, 0xC4, 0xC6, 0x62, 0x8B, 0x80, 0xDC, 0x1C, 0xD1,
   0x29, 0x02, 0x4E, 0x08, 0x8A, 0x67, 0xCC, 0x74, 0x02, 0x0B, 0xBE, 0xA6,
   0x3B, 0x13, 0x9B, 0x22, 0x51, 0x4A, 0x08, 0x79, 0x8E, 0x34, 0x04, 0xDD,
   0xEF, 0x95, 0x19, 0xB3, 0xCD, 0x3A, 0x43, 0x1B, 0x30, 0x2B, 0x0A, 0x6D,
   0xF2, 0x5F, 0x14, 0x37, 0x4F, 0xE1, 0x35, 0x6D, 0x6D, 0x51, 0xC2, 0x45,
   0xE4, 0x85, 0xB5, 0x76, 0x62, 0x5E, 0x7E, 0xC6, 0xF4, 0x4C, 0x42, 0xE9,
   0xA6, 0x37, 0xED, 0x6B, 0x0B, 0xFF, 0x5C, 0xB6, 0xF4, 0x06, 0xB7, 0xED,
   0xEE, 0x38, 0x6B, 0xFB, 0x5A, 0x89, 0x9F, 0xA5, 0xAE, 0x9F, 0x24, 0x11,
   0x7C, 0x4B, 0x1F, 0xE6, 0x49, 0x28, 0x66, 0x51, 0xEC, 0xE4, 0x5B, 0x3D,
   0xC2, 0x00, 0x7C, 0xB8, 0xA1, 0x63, 0xBF, 0x05, 0x98, 0xDA, 0x48, 0x36,
   0x1C, 0x55, 0xD3, 0x9A, 0x69, 0x16, 0x3F, 0xA8, 0xFD, 0x24, 0xCF, 0x5F,
   0x83, 0x65, 0x5D, 0x23, 0xDC, 0xA3, 0xAD, 0x96, 0x1C, 0x62, 0xF3, 0x56,
   0x20, 0x85, 0x52, 0xBB, 0x9E, 0xD5, 0x29, 0x07, 0x70, 0x96, 0x96, 0x6D,
   0x67, 0x0C, 0x35, 0x4E, 0x4A, 0xBC, 0x98, 0x04, 0xF1, 0x74, 0x6C, 0x08,
   0xCA, 0x18, 0x21, 0x7C, 0x32, 0x90, 0x5E, 0x46, 0x2E, 0x36, 0xCE, 0x3B,
   0xE3, 0x9E, 0x77, 0x2C, 0x18, 0x0E, 0x86, 0x03, 0x9B, 0x27, 0x83, 0xA2,
   0xEC, 0x07, 0xA2, 0x8F, 0xB5, 0xC5, 0x5D, 0xF0, 0x6F, 0x4C, 0x52, 0xC9,
   0xDE, 0x2B, 0xCB, 0xF6, 0x95, 0x58, 0x17, 0x18, 0x39, 0x95, 0x49, 0x7C,
   0xEA, 0x95, 0x6A, 0xE5, 0x15, 0xD2, 0x26, 0x18, 0x98, 0xFA, 0x05, 0x10,
   0x15, 0x72, 0x8E, 0x5A, 0x8A, 0xAC, 0xAA, 0x68, 0xFF, 0xFF, 0xFF, 0xFF,
   0xFF, 0xFF, 0xFF, 0xFF]

/-- Byte string p_group16_value from dh.c (512 bytes, big-endian prime of group 16). -/
def p_group16_value : List Nat :=
  [0xFF, 0xFF, 0xFF, 0xFF, 0xFF, 0xFF, 0xFF, 0xFF, 0xC9, 0x0F, 0xDA, 0xA2,
   0x21, 0x68, 0xC2, 0x34, 0xC4, 0xC6, 0x62, 0x8B, 0x80, 0xDC, 0x1C, 0xD1,
   0x29, 0x02, 0x4E, 0x08, 0x8A, 0x67, 0xCC, 0x74, 0x02, 0x0B, 0xBE, 0xA6,
   0x3B, 0x13, 0x9B, 0x22, 0x51, 0x4A, 0x08, 0x79, 0x8E, 0x34, 0x04, 0xDD,
   0xEF, 0x95, 0x19, 0xB3, 0xCD, 0x3A, 0x43, 0x1B, 0x30, 0x2B, 0x0A, 0x6D,
   0xF2, 0x5F, 0x14, 0x37, 0x4F, 0xE1, 0x35, 0x6D, 0x6D, 0x51, 0xC2, 0x45,
   0xE4, 0x85, 0xB5, 0x76, 0x62, 0x5E, 0x7E, 0xC6, 0xF4, 0x4C, 0x42, 0xE9,
   0xA6, 0x37, 0xED, 0x6B, 0x0B, 0xFF, 0x5C, 0xB6, 0xF4, 0x06, 0xB7, 0xED,
   0xEE, 0x38, 0x6B, 0xFB, 0x5A, 0x89, 0x9F, 0xA5, 0xAE, 0x9F, 0x24, 0x11,
   0x7C, 0x4B, 0x1F, 0xE6, 0x49, 0x28, 0x66, 0x51, 0xEC, 0xE4, 0x5B, 0x3D,
   0xC2, 0x00, 0x7C, 0xB8, 0xA1, 0x63, 0xBF, 0x05, 0x98, 0xDA, 0x48, 0x36,
   0x1C, 0x55, 0xD3, 0x9A, 0x69, 0x16, 0x3F, 0xA8, 0xFD, 0x24, 0xCF, 0x5F,
   0x83, 0x65, 0x5D, 0x23, 0xDC, 0xA3, 0xAD, 0x96, 0x1C, 0x62, 0xF3, 0x56,
   0x20, 0x85, 0x52, 0xBB, 0x9E, 0xD5, 0x29, 0x07, 0x70, 0x96, 0x96, 0x6D,
   0x67, 0x0C, 0x35, 0x4E, 0x4A, 0xBC, 0x98, 0x04, 0xF1, 0x74, 0x6C, 0x08,
   0xCA, 0x18, 0x21, 0x7C, 0x32, 0x90, 0x5E, 0x46, 0x2E, 0x36, 0xCE, 0x3B,
   0xE3, 0x9E, 0x77, 0x2C, 0x18, 0x0E, 0x86, 0x03, 0x9B, 0x27, 0x83, 0xA2,
   0xEC, 0x07, 0xA2, 0x8F, 0xB5, 0xC5, 0x5D, 0xF0, 0x6F, 0x4C, 0x52, 0xC9,
   0xDE, 0x2B, 0xCB, 0xF6, 0x95, 0x58, 0x17, 0x18, 0x39, 0x95, 0x49, 0x7C,
   0xEA, 0x95, 0x6A, 0xE5, 0x15, 0xD2, 0x26, 0x18, 0x98, 0xFA, 0x05, 0x10,
   0x15, 0x72, 0x8E, 0x5A, 0x8A, 0xAA, 0xC4, 0x2D, 0xAD, 0x33, 0x17, 0x0D,
   0x04, 0x50, 0x7A, 0x33, 0xA8, 0x55, 0x21, 0xAB, 0xDF, 0x1C, 0xBA, 0x64,
   0xEC, 0xFB, 0x85, 0x04, 0x58, 0xDB, 0xEF, 0x0A, 0x8A, 0xEA, 0x71, 0x57,
   0x5D, 0x06, 0x0C, 0x7D, 0xB3, 0x97, 0x0F, 0x85, 0xA6, 0xE1, 0xE4, 0xC7,
   0xAB, 0xF5, 0xAE, 0x8C, 0xDB, 0x09, 0x33, 0xD7, 0x1E, 0x8C, 0x94, 0xE0,
   0x4A, 0x25, 0x61, 0x9D, 0xCE, 0xE3, 0xD2, 0x26, 0x1A, 0xD2, 0xEE, 0x6B,
   0xF1, 0x2F, 0xFA, 0x06, 0xD9, 0x8A, 0x08, 0x64, 0xD8, 0x76, 0x02, 0x73,
   0x3E, 0xC8, 0x6A, 0x64, 0x52, 0x1F, 0x2B, 0x18, 0x17, 0x7B, 0x20, 0x0C,
   0xBB, 0xE1, 0x17, 0x57, 0x7A, 0x61, 0x5D, 0x6C, 0x77, 0x09, 0x88, 0xC0,
   0xBA, 0xD9, 0x46, 0xE2, 0x08, 0xE2, 0x4F, 0xA0, 0x74, 0xE5, 0xAB, 0x31,
   0x43, 0xDB, 0x5B, 0xFC, 0xE0, 0xFD, 0x10, 0x8E, 0x4B, 0x82, 0xD1, 0x20,
   0xA9, 0x21, 0x08, 0x01, 0x1A, 0x72, 0x3C, 0x12, 0xA7, 0x87, 0xE6, 0xD7,
   0x88, 0x71, 0x9A, 0x10, 0xBD, 0xBA, 0x5B, 0x26, 0x99, 0xC3, 0x27, 0x18,
   0x6A, 0xF4, 0xE2, 0x3C, 0x1A, 0x94, 0x68, 0x34, 0xB6, 0x15, 0x0B, 0xDA,
   0x25, 0x83, 0xE9, 0xCA, 0x2A, 0xD4, 0x4C, 0xE8, 0xDB, 0xBB, 0xC2, 0xDB,
   0x04, 0xDE, 0x8E, 0xF9, 0x2E, 0x8E, 0xFC, 0x14, 0x1F, 0xBE, 0xCA, 0xA6,
   0x28, 0x7C, 0x59, 0x47, 0x4E, 0x6B, 0xC0, 0x5D, 0x99, 0xB2, 0x96, 0x4F,
   0xA0, 0x90, 0xC3, 0xA2, 0x23, 0x3B, 0xA1, 0x86, 0x51, 0x5B, 0xE7, 0xED,
   0x1F, 0x61, 0x29, 0x70, 0xCE, 0xE2, 0xD7, 0xAF, 0xB8, 0x1B, 0xDD, 0x76,
   0x21, 0x70, 0x48, 0x1C, 0xD0, 0x06, 0x91, 0x27, 0xD5, 0xB0, 0x5A, 0xA9,
   0x93, 0xB4, 0xEA, 0x98, 0x8D, 0x8F, 0xDD, 0xC1, 0x86, 0xFF, 0xB7, 0xDC,
   0x90, 0xA6, 0xC0, 0x8F, 0x4D, 0xF4, 0x35, 0xC9, 0x34, 0x06, 0x31, 0x99,
   0xFF, 0xFF, 0xFF, 0xFF, 0xFF, 0xFF, 0xFF, 0xFF]

/-- Byte string p_group18_value from dh.c (1024 bytes, big-endian prime of group 18). -/
def p_group18_value : List Nat :=
  [0xFF, 0xFF, 0xFF, 0xFF, 0xFF, 0xFF, 0xFF, 0xFF, 0xC9, 0x0F, 0xDA, 0xA2,
   0x21, 0x68, 0xC2, 0x34, 0xC4, 0xC6, 0x62, 0x8B, 0x80, 0xDC, 0x1C, 0xD1,
   0x29, 0x02, 0x4E, 0x08, 0x8A, 0x67, 0xCC, 0x74, 0x02, 0x0B, 0xBE, 0xA6,
   0x3B, 0x13, 0x9B, 0x22, 0x51, 0x4A, 0x08, 0x79, 0x8E, 0x34, 0x04, 0xDD,
   0xEF, 0x95, 0x19, 0xB3, 0xCD, 0x3A, 0x43, 0x1B, 0x30, 0x2B, 0x0A, 0x6D,
   0xF2, 0x5F, 0x14, 0x37, 0x4F, 0xE1, 0x35, 0x6D, 0x6D, 0x51, 0xC2, 0x45,
   0xE4, 0x85, 0xB5, 0x76, 0x62, 0x5E, 0x7E, 0xC6, 0xF4, 0x4C, 0x42, 0xE9,
   0xA6, 0x37, 0xED, 0x6B, 0x0B, 0xFF, 0x5C, 0xB6, 0xF4, 0x06, 0xB7, 0xED,
   0xEE, 0x38, 0x6B, 0xFB, 0x5A, 0x89, 0x9F, 0xA5, 0xAE, 0x9F, 0x24, 0x11,
   0x7C, 0x4B, 0x1F, 0xE6, 0x49, 0x28, 0x66, 0x51, 0xEC, 0xE4, 0x5B, 0x3D,
   0xC2, 0x00, 0x7C, 0xB8, 0xA1, 0x63, 0xBF, 0x05, 0x98, 0xDA, 0x48, 0x36,
   0x1C, 0x55, 0xD3, 0x9A, 0x69, 0x16, 0x3F, 0xA8, 0xFD, 0x24, 0xCF, 0x5F,
   0x83, 0x65, 0x5D, 0x23, 0xDC, 0xA3, 0xAD, 0x96, 0x1C, 0x62, 0xF3, 0x56,
   0x20, 0x85, 0x52, 0xBB, 0x9E, 0xD5, 0x29, 0x07, 0x70, 0x96, 0x96, 0x6D,
   0x67, 0x0C, 0x35, 0x4E, 0x4A, 0xBC, 0x98, 0x04, 0xF1, 0x74, 0x6C, 0x08,
   0xCA, 0x18, 0x21, 0x7C, 0x32, 0x90, 0x5E, 0x46, 0x2E, 0x36, 0xCE, 0x3B,
   0xE3, 0x9E, 0x77, 0x2C, 0x18, 0x0E, 0x86, 0x03, 0x9B, 0x27, 0x83, 0xA2,
   0xEC, 0x07, 0xA2, 0x8F, 0xB5, 0xC5, 0x5D, 0xF0, 0x6F, 0x4C, 0x52, 0xC9,
   0xDE, 0x2B, 0xCB, 0xF6, 0x95, 0x58, 0x17, 0x18, 0x39, 0x95, 0x49, 0x7C,
   0xEA, 0x95, 0x6A, 0xE5, 0x15, 0xD2, 0x26, 0x18, 0x98, 0xFA, 0x05, 0x10,
   0x15, 0x72, 0x8E, 0x5A, 0x8A, 0xAA, 0xC4, 0x2D, 0xAD, 0x33, 0x17, 0x0D,
   0x04, 0x50, 0x7A, 0x33, 0xA8, 0x55, 0x21, 0xAB, 0xDF, 0x1C, 0xBA, 0x64,
   0xEC, 0xFB, 0x85, 0x04, 0x58, 0xDB, 0xEF, 0x0A, 0x8A, 0xEA, 0x71, 0x57,
   0x5D, 0x06, 0x0C, 0x7D, 0xB3, 0x97, 0x0F, 0x85, 0xA6, 0xE1, 0xE4, 0xC7,
   0xAB, 0xF5, 0xAE, 0x8C, 0xDB, 0x09, 0x33, 0xD7, 0x1E, 0x8C, 0x94, 0xE0,
   0x4A, 0x25, 0x61, 0x9D, 0xCE, 0xE3, 0xD2, 0x26, 0x1A, 0xD2, 0xEE, 0x6B,
   0xF1, 0x2F, 0xFA, 0x06, 0xD9, 0x8A, 0x08, 0x64, 0xD8, 0x76, 0x02, 0x73,
   0x3E, 0xC8, 0x6A, 0x64, 0x52, 0x1F, 0x2B, 0x18, 0x17, 0x7B, 0x20, 0x0C,
   0xBB, 0xE1, 0x17, 0x57, 0x7A, 0x61, 0x5D, 0x6C, 0x77, 0x09, 0x88, 0xC0,
   0xBA, 0xD9, 0x46, 0xE2, 0x08, 0xE2, 0x4F, 0xA0, 0x74, 0xE5, 0xAB, 0x31,
   0x43, 0xDB, 0x5B, 0xFC, 0xE0, 0xFD, 0x10, 0x8E, 0x4B, 0x82, 0xD1, 0x20,
   0xA9, 0x21, 0x08, 0x01, 0x1A, 0x72, 0x3C, 0x12, 0xA7, 0x87, 0xE6, 0xD7,
   0x88, 0x71, 0x9A, 0x10, 0xBD, 0xBA, 0x5B, 0x26, 0x99, 0xC3, 0x27, 0x18,
   0x6A, 0xF4, 0xE2, 0x3C, 0x1A, 0x94, 0x68, 0x34, 0xB6, 0x15, 0x0B, 0xDA,
   0x25, 0x83, 0xE9, 0xCA, 0x2A, 0xD4, 0x4C, 0xE8, 0xDB, 0xBB, 0xC2, 0xDB,
   0x04, 0xDE, 0x8E, 0xF9, 0x2E, 0x8E, 0xFC, 0x14, 0x1F, 0xBE, 0xCA, 0xA6,
   0x28, 0x7C, 0x59, 0x47, 0x4E, 0x6B, 0xC0, 0x5D, 0x99, 0xB2, 0x96, 0x4F,
   0xA0, 0x90, 0xC3, 0xA2, 0x23, 0x3B, 0xA1, 0x86, 0x51, 0x5B, 0xE7, 0xED,
   0x1F, 0x61, 0x29, 0x70, 0xCE, 0xE2, 0xD7, 0xAF, 0xB8, 0x1B, 0xDD, 0x76,
   0x21, 0x70, 0x48, 0x1C, 0xD0, 0x06, 0x91, 0x27, 0xD5, 0xB0, 0x5A, 0xA9,
   0x93, 0xB4, 0xEA, 0x98, 0x8D, 0x8F, 0xDD, 0xC1, 0x86, 0xFF, 0xB7, 0xDC,
   0x90, 0xA6, 0xC0, 0x8F, 0x4D, 0xF4, 0x35, 0xC9, 0x34, 0x02, 0x84, 0x92,
   0x36, 0xC3, 0xFA, 0xB4, 0xD2, 0x7C, 0x70, 0x26, 0xC1, 0xD4, 0xDC, 0xB2,
   0x60, 0x26, 0x46, 0xDE, 0xC9, 0x75, 0x1E, 0x76, 0x3D, 0xBA, 0x37, 0xBD,
   0xF8, 0xFF, 0x94, 0x06, 0xAD, 0x9E, 0x53, 0x0E, 0xE5, 0xDB, 0x38, 0x2F,
   0x41, 0x30, 0x01, 0xAE, 0xB0, 0x6A, 0x53, 0xED, 0x90, 0x27, 0xD8, 0x31,
   0x17, 0x97, 0x27, 0xB0, 0x86, 0x5A, 0x89, 0x18, 0xDA, 0x3E, 0xDB, 0xEB,
   0xCF, 0x9B, 0x14, 0xED, 0x44, 0xCE, 0x6C, 0xBA, 0xCE, 0xD4, 0xBB, 0x1B,
   0xDB, 0x7F, 0x14, 0x47, 0xE6, 0xCC, 0x25, 0x4B, 0x33, 0x20, 0x51, 0x51,
   0x2B, 0xD7, 0xAF, 0x42, 0x6F, 0xB8, 0xF4, 0x01, 0x37, 0x8C, 0xD2, 0xBF,
   0x59, 0x83, 0xCA, 0x01, 0xC6, 0x4B, 0x92, 0xEC, 0xF0, 0x32, 0xEA, 0x15,
   0xD1, 0x72, 0x1D, 0x03, 0xF4, 0x82, 0xD7, 0xCE, 0x6E, 0x74, 0xFE, 0xF6,
   0xD5, 0x5E, 0x70, 0x2F, 0x46, 0x98, 0x0C, 0x82, 0xB5, 0xA8, 0x40, 0x31,
   0x90, 0x0B, 0x1C, 0x9E, 0x59, 0xE7, 0xC9, 0x7F, 0xBE, 0xC7, 0xE8, 0xF3,
   0x23, 0xA9, 0x7A, 0x7E, 0x36, 0xCC, 0x88, 0xBE, 0x0F, 0x1D, 0x45, 0xB7,
   0xFF, 0x58, 0x5A, 0xC5, 0x4B, 0xD4, 0x07, 0xB2, 0x2B, 0x41, 0x54, 0xAA,
   0xCC, 0x8F, 0x6D, 0x7E, 0xBF, 0x48, 0xE1, 0xD8, 0x14, 0xCC, 0x5E, 0xD2,
   0x0F, 0x80, 0x37, 0xE0, 0xA7, 0x97, 0x15, 0xEE, 0xF2, 0x9B, 0xE3, 0x28,
   0x06, 0xA1, 0xD5, 0x8B, 0xB7, 0xC5, 0xDA, 0x76, 0xF5, 0x50, 0xAA, 0x3D,
   0x8A, 0x1F, 0xBF, 0xF0, 0xEB, 0x19, 0xCC, 0xB1, 0xA3, 0x13, 0xD5, 0x5C,
   0xDA, 0x56, 0xC9, 0xEC, 0x2E, 0xF2, 0x96, 0x32, 0x38, 0x7F, 0xE8, 0xD7,
   0x6E, 0x3C, 0x04, 0x68, 0x04, 0x3E, 0x8F, 0x66, 0x3F, 0x48, 0x60, 0xEE,
   0x12, 0xBF, 0x2D, 0x5B, 0x0B, 0x74, 0x74, 0xD6, 0xE6, 0x94, 0xF9, 0x1E,
   0x6D, 0xBE, 0x11, 0x59, 0x74, 0xA3, 0x92, 0x6F, 0x12, 0xFE, 0xE5, 0xE4,
   0x38, 0x77, 0x7C, 0xB6, 0xA9, 0x32, 0xDF, 0x8C, 0xD8, 0xBE, 0xC4, 0xD0,
   0x73, 0xB9, 0x31, 0xBA, 0x3B, 0xC8, 0x32, 0xB6, 0x8D, 0x9D, 0xD3, 0x00,
   0x74, 0x1F, 0xA7, 0xBF, 0x8A, 0xFC, 0x47, 0xED, 0x25, 0x76, 0xF6, 0x93,
   0x6B, 0xA4, 0x24, 0x66, 0x3A, 0xAB, 0x63, 0x9C, 0x5A, 0xE4, 0xF5, 0x68,
   0x34, 0x23, 0xB4, 0x74, 0x2B, 0xF1, 0xC9, 0x78, 0x23, 0x8F, 0x16, 0xCB,
   0xE3, 0x9D, 0x65, 0x2D, 0xE3, 0xFD, 0xB8, 0xBE, 0xFC, 0x84, 0x8A, 0xD9,
   0x22, 0x22, 0x2E, 0x04, 0xA4, 0x03, 0x7C, 0x07, 0x13, 0xEB, 0x57, 0xA8,
   0x1A, 0x23, 0xF0, 0xC7, 0x34, 0x73, 0xFC, 0x64, 0x6C, 0xEA, 0x30, 0x6B,
   0x4B, 0xCB, 0xC8, 0x86, 0x2F, 0x83, 0x85, 0xDD, 0xFA, 0x9D, 0x4B, 0x7F,
   0xA2, 0xC0, 0x87, 0xE8, 0x79, 0x68, 0x33, 0x03, 0xED, 0x5B, 0xDD, 0x3A,
   0x06, 0x2B, 0x3C, 0xF5, 0xB3, 0xA2, 0x78, 0xA6, 0x6D, 0x2A, 0x13, 0xF8,
   0x3F, 0x44, 0xF8, 0x2D, 0xDF, 0x31, 0x0E, 0xE0, 0x74, 0xAB, 0x6A, 0x36,
   0x45, 0x97, 0xE8, 0x99, 0xA0, 0x25, 0x5D, 0xC1, 0x64, 0xF3, 0x1C, 0xC5,
   0x08, 0x46, 0x85, 0x1D, 0xF9, 0xAB, 0x48, 0x19, 0x5D, 0xED, 0x7E, 0xA1,
   0xB1, 0xD5, 0x10, 0xBD, 0x7E, 0xE7, 0x4D, 0x73, 0xFA, 0xF3, 0x6B, 0xC3,
   0x1E, 0xCF, 0xA2, 0x68, 0x35, 0x90, 0x46, 0xF4, 0xEB, 0x87, 0x9F, 0x92,
   0x40, 0x09, 0x43, 0x8B, 0x48, 0x1C, 0x6C, 0xD7, 0x88, 0x9A, 0x00, 0x2E,
   0xD5, 0xEE, 0x38, 0x2B, 0xC9, 0x19, 0x0D, 0xA6, 0xFC, 0x02, 0x6E, 0x47,
   0x95, 0x58, 0xE4, 0x47, 0x56, 0x77, 0xE9, 0xAA, 0x9E, 0x30, 0x50, 0xE2,
   0x76, 0x56, 0x94, 0xDF, 0xC8, 0x1F, 0x56, 0xE8, 0x80, 0xB9, 0x6E, 0x71,
   0x60, 0xC9, 0x80, 0xDD, 0x98, 0xED, 0xD3, 0xDF, 0xFF, 0xFF, 0xFF, 0xFF,
   0xFF, 0xFF, 0xFF, 0xFF]

/-- bignum_bin2bn: big-endian byte string to natural number. -/
def bignum_bin2bn (l : List Nat) : Nat := l.foldl (fun a b => a * 256 + b) 0

/-- The generator, set to 2 in ssh_dh_init (g_int = 2). -/
def ssh_dh_generator : Nat := 2

/-- The group 14 modulus as stored by ssh_dh_init. -/
def ssh_dh_group14 : Nat := bignum_bin2bn p_group14_value

/-- The group 16 modulus as stored by ssh_dh_init. -/
def ssh_dh_group16 : Nat := bignum_bin2bn p_group16_value

/-- The group 18 modulus as stored by ssh_dh_init. -/
def ssh_dh_group18 : Nat := bignum_bin2bn p_group18_value

/-- Modelled from the spec: bignum_num_bits is the external bignum primitive
giving the number of significant bits of a bignum (0 for the value 0,
otherwise the floor of log2 plus one). -/
def bignum_num_bits (n : Nat) : Nat := if n = 0 then 0 else Nat.log2 n + 1

/-- ssh_dh_is_known_group from dh.c: select the reference modulus by the bit
length of the candidate, compare it with the candidate, then compare the
generator with the stored generator 2. -/
def ssh_dh_is_known_group (modulus generator : Nat) : Bool :=
  let bits := bignum_num_bits modulus
  let m := if bits < 3072 then ssh_dh_group14
           else if bits < 6144 then ssh_dh_group16
           else ssh_dh_group18
  if m ≠ modulus then false
  else if ssh_dh_generator ≠ generator then false
  else true

/-- Observable effects of one call to ssh_client_dh_init. -/
structure ClientInitTrace where
  rc : Int
  dhCleanup : Bool
  handshakeState : Option Nat
  sessionErrorSet : Bool
  callbacksSet : Bool
  deriving DecidableEq, Repr

/-- DH_STATE_INIT_SENT marker for the handshake state field. -/
def DH_STATE_INIT_SENT : Nat := 1

/-- Control flow of ssh_client_dh_init, with the outcome of each fallible
step (ssh_dh_init_common, ssh_dh_keypair_gen_keys, ssh_dh_keypair_get_keys,
ssh_buffer_pack, ssh_packet_send) given by an oracle.  On the error label the
function calls ssh_dh_cleanup and returns SSH_ERROR; it never assigns
session_state.  On success it registers the callbacks, sets
dh_handshake_state = DH_STATE_INIT_SENT and returns the send result. -/
def ssh_client_dh_init (okInitCommon okGen okGet okPack okSend : Bool) :
    ClientInitTrace :=
  if okInitCommon = false then
    ⟨SSH_ERROR, true, none, false, false⟩
  else if okGen = false then
    ⟨SSH_ERROR, true, none, false, false⟩
  else if okGet = false then
    ⟨SSH_ERROR, true, none, false, false⟩
  else if okPack = false then
    ⟨SSH_ERROR, true, none, false, false⟩
  else
    ⟨if okSend then SSH_OK else SSH_ERROR, false, some DH_STATE_INIT_SENT,
      false, true⟩

/-- Atomic observable actions of the KEXDH_REPLY client handler. -/
inductive ReplyEvent
  | removeCallbacks
  | unpack
  | setKeys
  | importPubkey
  | computeSecret
  | addNewkeys
  | sendPacket
  | setNewkeysSent
  | dhCleanup
  | setSessionError
  deriving DecidableEq, Repr

/-- Tail of every error path of the handler: cleanup then session error. -/
def replyErrTail : List ReplyEvent :=
  [ReplyEvent.dhCleanup, ReplyEvent.setSessionError]

/-- Event trace of ssh_packet_client_dh_reply, in source order: the callback
removal happens first, then the packet is unpacked, the server public key
stored, the host key blob imported, the shared secret computed, NEWKEYS
emitted and sent, and finally the handshake state is set; every failure
branches to the error label.  The Boolean result models SSH_PACKET_USED,
returned on every path. -/
def ssh_packet_client_dh_reply (okUnpack okSetKeys okImport okCompute
    okAdd okSend : Bool) : List ReplyEvent × Bool :=
  (ReplyEvent.removeCallbacks :: ReplyEvent.unpack ::
    (if okUnpack = false then replyErrTail else
      ReplyEvent.setKeys ::
      (if okSetKeys = false then replyErrTail else
        ReplyEvent.importPubkey ::
        (if okImport = false then replyErrTail else
          ReplyEvent.computeSecret ::
          (if okCompute = false then replyErrTail else
            ReplyEvent.addNewkeys ::
            (if okAdd = false then replyErrTail else
              ReplyEvent.sendPacket ::
              (if okSend = false then replyErrTail else
                [ReplyEvent.setNewkeysSent])))))), true)

/-- Hash-type tags of enum ssh_publickey_hash_type, plus a representative of
any value outside the three known tags. -/
inductive HashType
  | sha1
  | md5
  | sha256
  | unknown
  deriving DecidableEq, Repr

/-- Modelled from the spec: bin_to_base64 (the base64 encoder lives outside
the two given source files).  Standard alphabet, with = padding. -/
def b64Alphabet : List Char :=
  ['A', 'B', 'C', 'D', 'E', 'F', 'G', 'H', 'I', 'J', 'K', 'L', 'M',
   'N', 'O', 'P', 'Q', 'R', 'S', 'T', 'U', 'V', 'W', 'X', 'Y', 'Z',
   'a', 'b', 'c', 'd', 'e', 'f', 'g', 'h', 'i', 'j', 'k', 'l', 'm',
   'n', 'o', 'p', 'q', 'r', 's', 't', 'u', 'v', 'w', 'x', 'y', 'z',
   '0', '1', '2', '3', '4', '5', '6', '7', '8', '9', '+', '/']

/-- Character of the standard base64 alphabet at index n. -/
def b64Char (n : Nat) : Char := b64Alphabet.getD n 'A'

/-- Modelled from the spec: standard base64 encoding of a byte string with
= padding (the function bin_to_base64 is not part of the given sources). -/
def bin_to_base64 : List Nat → List Char
  | [] => []
  | [a] => [b64Char (a / 4), b64Char (a % 4 * 16), '=', '=']
  | [a, b] => [b64Char (a / 4), b64Char (a % 4 * 16 + b / 16), b64Char (b % 16 * 4), '=']
  | a :: b :: c :: rest =>
      b64Char (a / 4) :: b64Char (a % 4 * 16 + b / 16) ::
      b64Char (b % 16 * 4 + c / 64) :: b64Char (c % 64) :: bin_to_base64 rest

/-- Lowercase hex digit for a value below 16. -/
def hexDigit (n : Nat) : Char :=
  if n < 10 then Char.ofNat (48 + n) else Char.ofNat (87 + n)

/-- Two lowercase hex digits of one byte. -/
def byteHex (b : Nat) : List Char := [hexDigit (b / 16), hexDigit (b % 16)]

/-- Modelled from the spec: ssh_get_hexa (defined in misc.c, outside the given
sources) renders a byte string as lowercase colon-separated hex. -/
def ssh_get_hexa : List Nat → List Char
  | [] => []
  | [b] => byteHex b
  | b :: rest => byteHex b ++ ':' :: ssh_get_hexa rest

/-- The padding-stripping loop of ssh_get_b64_unpadded:
for (k = strlen(b64_padded); k != 0 && b64_padded[k-1] == '='; k--);
computed as a recursion on k. -/
def stripLoop (s : List Char) : Nat → Nat
  | 0 => 0
  | k + 1 => if s.getD k ' ' = '=' then stripLoop s k else k + 1

/-- ssh_get_b64_unpadded from dh.c: base64-encode, then strip the trailing
= characters by the k-loop and strndup the first k characters.  The two
allocations (bin_to_base64 and strndup) are Boolean oracles. -/
def ssh_get_b64_unpadded (okB64 okStrndup : Bool) (hash : List Nat) :
    Option (List Char) :=
  if okB64 = false then none
  else
    let b64_padded := bin_to_base64 hash
    let k := stripLoop b64_padded b64_padded.length
    if okStrndup = false then none
    else some (b64_padded.take k)

/-- Spec-side description of the stripping: the base64 string with all
trailing = characters removed. -/
def dropTrailingEq (s : List Char) : List Char :=
  (s.reverse.dropWhile (· = '=')).reverse

/-- Prefix chosen by the second switch of ssh_get_fingerprint_hash; the
variable is initialized to UNKNOWN and the switch has no default. -/
def pfxOf : HashType → List Char
  | HashType.md5 => ['M', 'D', '5']
  | HashType.sha1 => ['S', 'H', 'A', '1']
  | HashType.sha256 => ['S', 'H', 'A', '2', '5', '6']
  | HashType.unknown => ['U', 'N', 'K', 'N', 'O', 'W', 'N']

/-- ssh_get_fingerprint_hash from dh.c.  The first switch computes the body
(base64 for the SHA tags, hex for MD5) and leaves it NULL for any other tag,
in which case the function returns NULL.  The final string is
snprintf("%s:%s", prefix, fingerprint), with the malloc as an oracle.
okHexa is the allocation inside ssh_get_hexa. -/
def ssh_get_fingerprint_hash (okB64 okStrndup okHexa okMalloc : Bool)
    (t : HashType) (hash : List Nat) : Option (List Char) :=
  let fingerprint : Option (List Char) :=
    match t with
    | HashType.sha1 => ssh_get_b64_unpadded okB64 okStrndup hash
    | HashType.sha256 => ssh_get_b64_unpadded okB64 okStrndup hash
    | HashType.md5 => if okHexa = false then none else some (ssh_get_hexa hash)
    | HashType.unknown => none
  match fingerprint with
  | none => none
  | some fp =>
      if okMalloc = false then none
      else some (pfxOf t ++ ':' :: fp)

end DH

namespace BcryptPbkdf

theorem nIdx_pos {S K r : Nat} (h : r < K) : 0 < nIdx S K r := by
  simp [nIdx, h]

theorem lt_iff_nIdx {S K r : Nat} (hS : 0 < S) (i : Nat) :
    i * S + r < K ↔ i < nIdx S K r := by
  unfold nIdx
  by_cases hr : r < K
  · simp only [if_pos hr]
    constructor
    · intro h
      have h1 : i * S ≤ K - r - 1 := by omega
      have h2 := (Nat.le_div_iff_mul_le hS).2 h1
      omega
    · intro h
      have h2 : i ≤ (K - r - 1) / S := by omega
      have h3 := (Nat.le_div_iff_mul_le hS).1 h2
      omega
  · simp only [if_neg hr]
    omega

theorem nIdx_anti (S K r : Nat) : nIdx S K (r + 1) ≤ nIdx S K r := by
  unfold nIdx
  by_cases h1 : r + 1 < K
  · have h2 : r < K := by omega
    simp only [if_pos h1, if_pos h2]
    have h3 : K - (r + 1) - 1 ≤ K - r - 1 := by omega
    exact Nat.succ_le_succ (Nat.div_le_div_right h3)
  · simp only [if_neg h1]
    exact Nat.zero_le _

theorem nIdx_eq_card {S K r : Nat} (hS : 0 < S) (hr : r < S) :
    nIdx S K r = ((Finset.range K).filter (fun d => d % S = r)).card := by
  have hinj : Function.Injective (fun i : Nat => i * S + r) := by
    intro a b hab
    simp only [Nat.add_right_cancel_iff] at hab
    exact Nat.eq_of_mul_eq_mul_right hS hab
  have himg : (Finset.range K).filter (fun d => d % S = r) =
      (Finset.range (nIdx S K r)).image (fun i => i * S + r) := by
    ext d
    simp only [Finset.mem_filter, Finset.mem_range, Finset.mem_image]
    constructor
    · rintro ⟨hdK, hdr⟩
      have hd : d / S * S + r = d := by
        calc d / S * S + r = S * (d / S) + d % S := by rw [hdr, Nat.mul_comm]
        _ = d := Nat.div_add_mod d S
      exact ⟨d / S, (lt_iff_nIdx hS (d / S)).1 (by rw [hd]; exact hdK), hd⟩
    · rintro ⟨i, hi, rfl⟩
      refine ⟨(lt_iff_nIdx hS i).2 hi, ?_⟩
      rw [Nat.mul_comm, Nat.mul_add_mod]
      exact Nat.mod_eq_of_lt hr
  rw [himg, Finset.card_image_of_injective _ hinj, Finset.card_range]

theorem sum_nIdx {S K : Nat} (hS : 0 < S) :
    ∑ r ∈ Finset.range S, nIdx S K r = K := by
  have hfib := Finset.card_eq_sum_card_fiberwise
    (f := fun d => d % S) (s := Finset.range K) (t := Finset.range S)
    (fun x _ => Finset.mem_range.2 (Nat.mod_lt x hS))
  rw [Finset.card_range] at hfib
  rw [Finset.sum_congr rfl fun r hr =>
    nIdx_eq_card hS (Finset.mem_range.1 hr) (K := K)]
  exact hfib.symm

theorem keylenAt_zero {S K : Nat} (hS : 0 < S) : keylenAt S K 0 = K := by
  rw [keylenAt, ← Finset.range_eq_Ico]
  exact sum_nIdx hS

theorem keylenAt_self (S K : Nat) : keylenAt S K S = 0 := by
  simp [keylenAt]

theorem keylenAt_succ {S K c : Nat} (hc : c < S) :
    keylenAt S K c = nIdx S K c + keylenAt S K (c + 1) :=
  Finset.sum_eq_sum_Ico_succ_bot hc _

theorem nIdx_le_keylenAt {S K c r : Nat} (hcr : c ≤ r) (hr : r < S) :
    nIdx S K r ≤ keylenAt S K c :=
  Finset.single_le_sum (fun x _ => Nat.zero_le (nIdx S K x))
    (Finset.mem_Ico.2 ⟨hcr, hr⟩)

theorem keylenAt_pos {S K c : Nat} (hSK : S ≤ K) (hc : c < S) :
    0 < keylenAt S K c :=
  Nat.lt_of_lt_of_le (nIdx_pos (Nat.lt_of_lt_of_le hc hSK))
    (nIdx_le_keylenAt (Nat.le_refl c) hc)

theorem strideOf_pos {K : Nat} (hK : 0 < K) : 0 < strideOf K := by
  simp only [strideOf, BCRYPT_HASHSIZE, BCRYPT_BLOCKS]
  omega

theorem strideOf_le {K : Nat} (hK : 0 < K) : strideOf K ≤ K := by
  simp only [strideOf, BCRYPT_HASHSIZE, BCRYPT_BLOCKS]
  omega

theorem amtOf_eq {K : Nat} (hK : 0 < K) : amtOf K = nIdx (strideOf K) K 0 := by
  have hS := strideOf_pos hK
  rw [amtOf, nIdx, if_pos hK]
  have h1 : K + strideOf K - 1 = (K - 1) + strideOf K := by omega
  rw [h1, Nat.add_div_right _ hS, Nat.sub_zero]

theorem writeCount_keyWrite {α : Type} {K d : Nat} (key : Nat → List α)
    (x : α) (hd : d < K) :
    writeCount K (keyWrite key d x) = writeCount K key + 1 := by
  unfold writeCount keyWrite
  have hcong : ∀ e ∈ Finset.range K,
      (if e = d then key d ++ [x] else key e).length
        = (key e).length + if e = d then 1 else 0 := by
    intro e _
    by_cases he : e = d
    · subst he; simp
    · simp [he]
  rw [Finset.sum_congr rfl hcong, Finset.sum_add_distrib]
  have hone : (∑ e ∈ Finset.range K, if e = d then (1 : Nat) else 0) = 1 := by
    rw [Finset.sum_ite_eq' (Finset.range K) d (fun _ => (1 : Nat))]
    exact if_pos (Finset.mem_range.2 hd)
  rw [hone]

theorem placeFrom_ret_ge {α : Type} (v : Nat → Nat → α) (S count K : Nat) :
    ∀ (rem i : Nat) (key : Nat → List α),
      i ≤ (placeFrom v S count K key rem i).2 := by
  intro rem
  induction rem with
  | zero => intro i key; simp [placeFrom]
  | succ rem ih =>
      intro i key
      unfold placeFrom
      split
      · exact Nat.le_refl i
      · exact Nat.le_trans (Nat.le_succ i) (ih (i + 1) _)

theorem placeFrom_writeCount {α : Type} (v : Nat → Nat → α) (S count K : Nat) :
    ∀ (rem i : Nat) (key : Nat → List α),
      writeCount K (placeFrom v S count K key rem i).1 + i
        = writeCount K key + (placeFrom v S count K key rem i).2 := by
  intro rem
  induction rem with
  | zero => intro i key; simp [placeFrom]
  | succ rem ih =>
      intro i key
      unfold placeFrom
      split
      · rfl
      · rename_i hlt
        have hdest : i * S + (count - 1) < K := by omega
        have h1 := ih (i + 1) (keyWrite key (i * S + (count - 1)) (v count i))
        have h2 := writeCount_keyWrite key (v count i) hdest
        have h3 := placeFrom_ret_ge v S count K rem (i + 1)
          (keyWrite key (i * S + (count - 1)) (v count i))
        omega

theorem placeFrom_spec {α : Type} (v : Nat → Nat → α) {S : Nat} (hS : 0 < S)
    (count K : Nat) :
    ∀ (rem i : Nat) (key : Nat → List α), i ≤ nIdx S K (count - 1) →
      (placeFrom v S count K key rem i).2
          = min (i + rem) (nIdx S K (count - 1)) ∧
      (∀ j, i ≤ j → j < min (i + rem) (nIdx S K (count - 1)) →
        (placeFrom v S count K key rem i).1 (j * S + (count - 1))
          = key (j * S + (count - 1)) ++ [v count j]) ∧
      (∀ e, (∀ j, i ≤ j → j < min (i + rem) (nIdx S K (count - 1)) →
          e ≠ j * S + (count - 1)) →
        (placeFrom v S count K key rem i).1 e = key e) := by
  intro rem
  induction rem with
  | zero =>
      intro i key hi
      refine ⟨?_, ?_, ?_⟩
      · simp [placeFrom]
        omega
      · intro j hij hj
        omega
      · intro e _
        simp [placeFrom]
  | succ rem ih =>
      intro i key hi
      by_cases hK : K ≤ i * S + (count - 1)
      · have hn : nIdx S K (count - 1) ≤ i := by
          by_contra hlt
          push_neg at hlt
          have := (lt_iff_nIdx hS i).2 hlt
          omega
        have hie : i = nIdx S K (count - 1) := Nat.le_antisymm hi hn
        refine ⟨?_, ?_, ?_⟩
        · simp only [placeFrom, if_pos hK]
          omega
        · intro j hij hj
          omega
        · intro e _
          simp only [placeFrom, if_pos hK]
      · push_neg at hK
        have hin : i < nIdx S K (count - 1) := (lt_iff_nIdx hS i).1 hK
        obtain ⟨hret, hB2, hB1⟩ :=
          ih (i + 1) (keyWrite key (i * S + (count - 1)) (v count i)) hin
        have hunfold : placeFrom v S count K key (rem + 1) i
            = placeFrom v S count K
                (keyWrite key (i * S + (count - 1)) (v count i)) rem (i + 1) := by
          simp only [placeFrom]
          rw [if_neg (by omega)]
        refine ⟨?_, ?_, ?_⟩
        · rw [hunfold, hret]
          omega
        · intro j hij hj
          rw [hunfold]
          by_cases hji : j = i
          · subst hji
            rw [hB1 _ ?_]
            · unfold keyWrite
              rw [if_pos rfl]
            · intro j2 hj2 hj2lt hEq
              have hmul : j * S < j2 * S := (Nat.mul_lt_mul_right hS).2 (by omega)
              omega
          · have hstep := hB2 j (by omega) (by omega)
            rw [hstep]
            unfold keyWrite
            rw [if_neg ?_]
            intro hEq
            have hms : j * S = i * S := by omega
            exact hji (Nat.eq_of_mul_eq_mul_right hS hms)
        · intro e he
          rw [hunfold, hB1 _ fun j hj hjlt => he j (by omega) (by omega)]
          unfold keyWrite
          rw [if_neg (he i (Nat.le_refl i) (by omega))]

theorem interleave_zero {α : Type} (v : Nat → Nat → α) (S K : Nat)
    (key0 : Nat → List α) : interleave v S K 0 key0 = key0 := by
  funext e
  simp [interleave]

theorem placeFrom_interleave {α : Type} (v : Nat → Nat → α) {S K c m : Nat}
    (hS : 0 < S) (hc : c < S) (key0 : Nat → List α)
    (hm : nIdx S K c ≤ m) :
    (placeFrom v S (c + 1) K (interleave v S K c key0) m 0).2 = nIdx S K c ∧
    (placeFrom v S (c + 1) K (interleave v S K c key0) m 0).1
      = interleave v S K (c + 1) key0 := by
  obtain ⟨hret, hB2, hB1⟩ :=
    placeFrom_spec v hS (c + 1) K m 0 (interleave v S K c key0) (Nat.zero_le _)
  rw [Nat.add_sub_cancel] at hret hB2 hB1
  rw [Nat.zero_add] at hret hB2 hB1
  have hmin : min m (nIdx S K c) = nIdx S K c := Nat.min_eq_right hm
  rw [hmin] at hret hB2 hB1
  refine ⟨hret, ?_⟩
  funext e
  by_cases he : e < K ∧ e % S = c
  · obtain ⟨heK, her⟩ := he
    have hd : e / S * S + c = e := by
      calc e / S * S + c = S * (e / S) + e % S := by rw [her, Nat.mul_comm]
      _ = e := Nat.div_add_mod e S
    have hj : e / S < nIdx S K c :=
      (lt_iff_nIdx hS (e / S)).1 (by rw [hd]; exact heK)
    have hwrite := hB2 (e / S) (Nat.zero_le _) hj
    rw [hd] at hwrite
    rw [hwrite]
    have hold : interleave v S K c key0 e = key0 e := by
      unfold interleave
      rw [if_neg (by omega)]
    rw [hold]
    unfold interleave
    rw [if_pos (show e < K ∧ e % S < c + 1 from ⟨heK, by omega⟩), her]
  · have hkeep := hB1 e ?_
    · rw [hkeep]
      unfold interleave
      by_cases h2 : e < K ∧ e % S < c
      · rw [if_pos h2, if_pos (show e < K ∧ e % S < c + 1 from ⟨h2.1, by omega⟩)]
      · rw [if_neg h2, if_neg ?_]
        intro h5
        obtain ⟨h3, h4⟩ := h5
        by_cases hc2 : e % S = c
        · exact he ⟨h3, hc2⟩
        · exact h2 ⟨h3, by omega⟩
    · intro j _ hjn hEq
      have heK : e < K := by
        rw [hEq]
        exact (lt_iff_nIdx hS j).2 hjn
      have her : e % S = c := by
        rw [hEq, Nat.mul_comm, Nat.mul_add_mod]
        exact Nat.mod_eq_of_lt hc
      exact he ⟨heK, her⟩

theorem keyLoop_inv {α : Type} (v : Nat → Nat → α) {S K : Nat} (hS : 0 < S)
    (hSK : S ≤ K) (key0 : Nat → List α) :
    ∀ (fuel c m : Nat), c + fuel ≤ S → nIdx S K c ≤ m →
      (keyLoop v S K fuel (interleave v S K c key0) m
          (keylenAt S K c) (c + 1)).1
        = interleave v S K (c + fuel) key0 ∧
      (keyLoop v S K fuel (interleave v S K c key0) m
          (keylenAt S K c) (c + 1)).2.1
        = keylenAt S K (c + fuel) := by
  intro fuel
  induction fuel with
  | zero => intro c m _ _; exact ⟨rfl, rfl⟩
  | succ fuel ih =>
      intro c m hcf hm
      have hc : c < S := by omega
      have hkl : keylenAt S K c ≠ 0 := (keylenAt_pos hSK hc).ne'
      have hamt2 : nIdx S K c ≤ min m (keylenAt S K c) :=
        le_min hm (nIdx_le_keylenAt (Nat.le_refl c) hc)
      obtain ⟨hret, hkey⟩ :=
        placeFrom_interleave v (m := min m (keylenAt S K c)) hS hc key0 hamt2
      have hsub : keylenAt S K c
          - (placeFrom v S (c + 1) K (interleave v S K c key0)
              (min m (keylenAt S K c)) 0).2 = keylenAt S K (c + 1) := by
        rw [hret]
        have hpeel := keylenAt_succ (K := K) hc
        omega
      have hstep : keyLoop v S K (fuel + 1) (interleave v S K c key0) m
            (keylenAt S K c) (c + 1)
          = keyLoop v S K fuel (interleave v S K (c + 1) key0)
              (min m (keylenAt S K c)) (keylenAt S K (c + 1)) (c + 2) := by
        simp only [keyLoop, if_neg hkl]
        rw [hkey, hsub]
      rw [hstep]
      have hm2 : nIdx S K (c + 1) ≤ min m (keylenAt S K c) :=
        le_min (Nat.le_trans (nIdx_anti S K c) hm)
          (Nat.le_trans (nIdx_anti S K c) (nIdx_le_keylenAt (Nat.le_refl c) hc))
      obtain ⟨h1, h2⟩ := ih (c + 1) (min m (keylenAt S K c)) (by omega) hm2
      have hidx : c + 1 + fuel = c + (fuel + 1) := by omega
      rw [hidx] at h1 h2
      exact ⟨h1, h2⟩

theorem pbkdfState_spec {α : Type} (v : Nat → Nat → α) {K : Nat} (hK : 0 < K)
    (c : Nat) (hc : c ≤ strideOf K) :
    (pbkdfState v K c).1 = interleave v (strideOf K) K c (fun _ => []) ∧
    (pbkdfState v K c).2.1 = keylenAt (strideOf K) K c := by
  have hS := strideOf_pos hK
  have hSK := strideOf_le hK
  have h0 := keyLoop_inv v hS hSK (fun _ => ([] : List α)) c 0 (amtOf K)
    (by omega) (Nat.le_of_eq (amtOf_eq hK).symm)
  rw [interleave_zero, keylenAt_zero hS, Nat.zero_add, Nat.zero_add] at h0
  unfold pbkdfState
  exact h0

theorem writeCount_interleave_succ {α : Type} (v : Nat → Nat → α) {S K c : Nat}
    (hS : 0 < S) (hc : c < S) :
    writeCount K (interleave v S K (c + 1) (fun _ => []))
      = writeCount K (interleave v S K c (fun _ => [])) + nIdx S K c := by
  unfold writeCount
  have hcong : ∀ e ∈ Finset.range K,
      (interleave v S K (c + 1) (fun _ => ([] : List α)) e).length
        = (interleave v S K c (fun _ => ([] : List α)) e).length
          + if e % S = c then 1 else 0 := by
    intro e hmem
    have heK : e < K := Finset.mem_range.1 hmem
    by_cases h2 : e % S = c
    · have h1 : ¬ e % S < c := by omega
      have h3 : e % S < c + 1 := by omega
      simp [interleave, heK, h1, h2, h3]
    · by_cases h1 : e % S < c
      · have h3 : e % S < c + 1 := by omega
        simp [interleave, heK, h1, h2, h3]
      · have h3 : ¬ e % S < c + 1 := by omega
        simp [interleave, h1, h2, h3]
  rw [Finset.sum_congr rfl hcong, Finset.sum_add_distrib]
  congr 1
  have hsb : (∑ e ∈ Finset.range K, if e % S = c then (1 : Nat) else 0)
      = ((Finset.range K).filter (fun e => e % S = c)).card := by
    simp
  rw [hsb, ← nIdx_eq_card hS hc]

theorem bcrypt_pbkdf_success {α : Type} (v : Nat → Nat → α)
    {passlen saltlen keylen rounds : Nat} (key0 : Nat → List α)
    (hpass : 0 < passlen) (hsalt : 0 < saltlen) (hsaltmax : saltlen ≤ 2 ^ 20)
    (hrounds : 1 ≤ rounds) (hkey : 0 < keylen) (hkeymax : keylen ≤ 1024) :
    bcrypt_pbkdf v true true passlen saltlen keylen rounds key0
      = (0, (keyLoop v (strideOf keylen) keylen (strideOf keylen) key0
              (amtOf keylen) keylen 1).1) := by
  unfold bcrypt_pbkdf
  have h1 : BCRYPT_HASHSIZE * BCRYPT_HASHSIZE = 1024 := by decide
  have h2 : (1 <<< 20 : Nat) = 2 ^ 20 := by decide
  rw [if_neg (by omega), if_neg ?_, if_neg (by simp), if_neg (by simp)]
  rw [h1, h2]
  have h3 : (2 : Nat) ^ 20 = 1048576 := by norm_num
  omega

/-- C1: for every accepted input to bcrypt-PBKDF (non-empty password,
non-empty salt of at most 2 to the 20 bytes, at least one round, output
length in (0, 1024]), every output index d below out_len holds exactly the
one byte written during outer iteration (d mod stride) + 1 from accumulator
position d / stride; equivalently, for every count and i with
i * stride + (count - 1) < out_len, that cell holds byte i of the XOR
accumulator of iteration count. -/
theorem C1_bcrypt_pbkdf_output_interleaving {α : Type} (v : Nat → Nat → α)
    (passlen saltlen keylen rounds : Nat)
    (hpass : 0 < passlen) (hsalt : 0 < saltlen) (hsaltmax : saltlen ≤ 2 ^ 20)
    (hrounds : 1 ≤ rounds) (hkey : 0 < keylen) (hkeymax : keylen ≤ 1024) :
    (∀ d, d < keylen →
      (bcrypt_pbkdf v true true passlen saltlen keylen rounds (fun _ => [])).2 d
        = [v (d % strideOf keylen + 1) (d / strideOf keylen)]) ∧
    (∀ count i, 1 ≤ count → count ≤ strideOf keylen →
      i * strideOf keylen + (count - 1) < keylen →
      (bcrypt_pbkdf v true true passlen saltlen keylen rounds (fun _ => [])).2
        (i * strideOf keylen + (count - 1)) = [v count i]) := by
  have hS := strideOf_pos hkey
  have hrun := bcrypt_pbkdf_success v (fun _ => ([] : List α))
    hpass hsalt hsaltmax hrounds hkey hkeymax
  have hfin := (pbkdfState_spec v hkey (strideOf keylen) (Nat.le_refl _)).1
  have hsnd : (bcrypt_pbkdf v true true passlen saltlen keylen rounds
        (fun _ => [])).2
      = interleave v (strideOf keylen) keylen (strideOf keylen)
          (fun _ => []) := by
    rw [hrun]
    exact hfin
  constructor
  · intro d hd
    rw [hsnd]
    unfold interleave
    rw [if_pos ⟨hd, Nat.mod_lt d hS⟩]
    simp
  · intro count i h1 h2 h3
    have hc1 : count - 1 < strideOf keylen := by omega
    have hmod : (i * strideOf keylen + (count - 1)) % strideOf keylen
        = count - 1 := by
      rw [Nat.mul_comm, Nat.mul_add_mod]
      exact Nat.mod_eq_of_lt hc1
    have hdiv : (i * strideOf keylen + (count - 1)) / strideOf keylen = i := by
      rw [Nat.mul_comm, Nat.mul_add_div hS, Nat.div_eq_of_lt hc1, Nat.add_zero]
    rw [hsnd]
    unfold interleave
    rw [if_pos ⟨h3, by rw [hmod]; omega⟩, hmod, hdiv]
    have h4 : count - 1 + 1 = count := by omega
    rw [h4]
    simp

/-- Witness for C1: passlen 1, saltlen 1, out_len 67, 1 round; output byte 5
(stride is 3, so byte 5 comes from iteration 3, accumulator position 1). -/
theorem C1_bcrypt_pbkdf_output_interleaving_witness :
    (bcrypt_pbkdf (fun c i => (c, i)) true true 1 1 67 1
        (fun _ => ([] : List (Nat × Nat)))).2 5 = [(3, 1)] := by
  have h := (C1_bcrypt_pbkdf_output_interleaving (fun c i => (c, i)) 1 1 67 1
    (by decide) (by decide) (by decide) (by decide) (by decide) (by decide)).1
    5 (by decide)
  rw [h]
  decide

/-- C2: on every accepted input the outer loop of bcrypt_pbkdf terminates
after exactly stride iterations: the remaining length is zero after stride
iterations and positive before, each iteration decrements the remaining
length by exactly the number of bytes placed in that iteration (the
writeCount increase), and that number is at least one. -/
theorem C2_bcrypt_pbkdf_outer_termination {α : Type} (v : Nat → Nat → α)
    (keylen : Nat) (hkey : 0 < keylen) (_hkeymax : keylen ≤ 1024) :
    (pbkdfState v keylen (strideOf keylen)).2.1 = 0 ∧
    (∀ c, c < strideOf keylen → 0 < (pbkdfState v keylen c).2.1) ∧
    (∀ c, c < strideOf keylen →
      (pbkdfState v keylen c).2.1
          = (pbkdfState v keylen (c + 1)).2.1
            + nIdx (strideOf keylen) keylen c ∧
      writeCount keylen (pbkdfState v keylen (c + 1)).1
          = writeCount keylen (pbkdfState v keylen c).1
            + nIdx (strideOf keylen) keylen c ∧
      0 < nIdx (strideOf keylen) keylen c) := by
  have hS := strideOf_pos hkey
  have hSK := strideOf_le hkey
  refine ⟨?_, ?_, ?_⟩
  · rw [(pbkdfState_spec v hkey _ (Nat.le_refl _)).2, keylenAt_self]
  · intro c hc
    rw [(pbkdfState_spec v hkey c (Nat.le_of_lt hc)).2]
    exact keylenAt_pos hSK hc
  · intro c hc
    have h1 := pbkdfState_spec v hkey c (Nat.le_of_lt hc)
    have h2 := pbkdfState_spec v hkey (c + 1) hc
    refine ⟨?_, ?_, nIdx_pos (by omega)⟩
    · rw [h1.2, h2.2, keylenAt_succ hc, Nat.add_comm]
    · rw [h1.1, h2.1]
      exact writeCount_interleave_succ v hS hc

/-- Witness for C2 at out_len 67: after stride iterations the remaining
length is zero. -/
theorem C2_bcrypt_pbkdf_outer_termination_witness :
    (pbkdfState (fun c i => (c, i)) 67 (strideOf 67)).2.1 = 0 :=
  (C2_bcrypt_pbkdf_outer_termination (fun c i => (c, i)) 67
    (by decide) (by decide)).1

/-- C3: bcrypt_pbkdf rejects with -1 exactly the parameter violations
rounds < 1, passlen = 0, saltlen = 0, keylen = 0, keylen > 1024,
saltlen > 2 to the 20 (allocations succeeding), and the output bound
sizeof(out) * sizeof(out) is exactly 1024. -/
theorem C3_bcrypt_pbkdf_param_validation {α : Type} (v : Nat → Nat → α)
    (passlen saltlen keylen rounds : Nat) (key0 : Nat → List α) :
    ((bcrypt_pbkdf v true true passlen saltlen keylen rounds key0).1 = -1 ↔
      (rounds < 1 ∨ passlen = 0 ∨ saltlen = 0 ∨ keylen = 0 ∨
        1024 < keylen ∨ 2 ^ 20 < saltlen)) ∧
    BCRYPT_HASHSIZE * BCRYPT_HASHSIZE = 1024 := by
  refine ⟨?_, by decide⟩
  unfold bcrypt_pbkdf
  have h1 : BCRYPT_HASHSIZE * BCRYPT_HASHSIZE = 1024 := by decide
  have h2 : (1 <<< 20 : Nat) = 2 ^ 20 := by decide
  rw [h1, h2]
  split_ifs <;> simp_all

/-- C5: whenever bcrypt_pbkdf returns -1 (parameter violation or allocation
failure), the output buffer write log is unchanged: no byte was written. -/
theorem C5_bcrypt_pbkdf_no_partial_output {α : Type} (v : Nat → Nat → α)
    (callocOk mallocOk : Bool) (passlen saltlen keylen rounds : Nat)
    (key0 : Nat → List α)
    (herr : (bcrypt_pbkdf v callocOk mallocOk passlen saltlen keylen rounds
        key0).1 = -1) :
    (bcrypt_pbkdf v callocOk mallocOk passlen saltlen keylen rounds key0).2
      = key0 := by
  unfold bcrypt_pbkdf at herr ⊢
  split_ifs at herr ⊢ <;> simp_all

/-- Witness for C5: rounds = 0 is rejected and the write log is untouched. -/
theorem C5_bcrypt_pbkdf_no_partial_output_witness :
    (bcrypt_pbkdf (fun c i => (c, i)) true true 1 1 32 0
        (fun _ => ([] : List (Nat × Nat)))).2 = (fun _ => []) :=
  C5_bcrypt_pbkdf_no_partial_output (fun c i => (c, i)) true true 1 1 32 0
    (fun _ => []) (by decide)

theorem and_255_mod (n : Nat) : n &&& 255 = n % 256 := by
  have h := Nat.and_pow_two_sub_one_eq_mod n 8
  norm_num at h
  exact h

/-- C4: the copy-out loop of bcrypt_hash serializes each 32-bit word of
cdata in little-endian byte order: output byte 4*i + k holds bits
8k .. 8k+7 of cdata[i]. -/
theorem C4_bcrypt_hash_little_endian (cdata out0 : Nat → Nat)
    (_hword : ∀ i, i < 8 → cdata i < 2 ^ 32) (i k : Nat)
    (hi : i < 8) (hk : k < 4) :
    bcrypt_hash_copyout cdata out0 (4 * i + k)
      = cdata i / 2 ^ (8 * k) % 2 ^ 8 := by
  have hrange : List.range BCRYPT_BLOCKS = [0, 1, 2, 3, 4, 5, 6, 7] := by rfl
  unfold bcrypt_hash_copyout
  rw [hrange]
  interval_cases i <;> interval_cases k <;>
    simp [List.foldl, copyOutStep, outUpd, Nat.shiftRight_eq_div_pow, and_255_mod]

/-- Witness for C4: word 2 of a sample cdata, byte position k = 1. -/
theorem C4_bcrypt_hash_little_endian_witness :
    bcrypt_hash_copyout (fun _ => 0x12345678) (fun _ => 0) (4 * 2 + 1)
      = 0x56 :=
  (C4_bcrypt_hash_little_endian (fun _ => 0x12345678) (fun _ => 0)
    (by intro j hj; norm_num) 2 1 (by decide) (by decide)).trans (by decide)

end BcryptPbkdf

namespace DH

theorem bin2bn_foldl_lt (l : List Nat) :
    ∀ acc, (∀ b ∈ l, b < 256) →
      l.foldl (fun a b => a * 256 + b) acc < (acc + 1) * 256 ^ l.length := by
  induction l with
  | nil => intro acc _; simp
  | cons b l ih =>
      intro acc hb
      have hb256 : b < 256 := hb b (List.mem_cons_self b l)
      have hrec := ih (acc * 256 + b) (fun x hx => hb x (List.mem_cons_of_mem b hx))
      calc (b :: l).foldl (fun a b => a * 256 + b) acc
          = l.foldl (fun a b => a * 256 + b) (acc * 256 + b) := rfl
        _ < (acc * 256 + b + 1) * 256 ^ l.length := hrec
        _ ≤ ((acc + 1) * 256) * 256 ^ l.length :=
            Nat.mul_le_mul_right _ (by omega)
        _ = (acc + 1) * 256 ^ (b :: l).length := by
            rw [List.length_cons, pow_succ]; ring

theorem bin2bn_lt (l : List Nat) (hb : ∀ b ∈ l, b < 256) :
    bignum_bin2bn l < 256 ^ l.length := by
  have h := bin2bn_foldl_lt l 0 hb
  simpa [bignum_bin2bn] using h

theorem foldl_acc_le (l : List Nat) :
    ∀ acc, acc ≤ l.foldl (fun a b => a * 256 + b) acc := by
  induction l with
  | nil => intro acc; exact Nat.le_refl acc
  | cons b l ih =>
      intro acc
      calc acc ≤ acc * 256 + b := by omega
        _ ≤ l.foldl (fun a b => a * 256 + b) (acc * 256 + b) := ih _
        _ = (b :: l).foldl (fun a b => a * 256 + b) acc := rfl

set_option maxRecDepth 4000 in
theorem group14_bytes_lt : ∀ b ∈ p_group14_value, b < 256 := by decide

set_option maxRecDepth 4000 in
theorem group14_length : p_group14_value.length = 256 := by decide

theorem group14_lt : ssh_dh_group14 < 2 ^ 2048 := by
  have h1 := bin2bn_lt p_group14_value group14_bytes_lt
  rw [group14_length] at h1
  have h3 : (256 : Nat) ^ 256 = 2 ^ 2048 := by
    have h4 : (256 : Nat) = 2 ^ 8 := by norm_num
    calc (256 : Nat) ^ 256 = (2 ^ 8) ^ 256 := by rw [h4]
      _ = 2 ^ (8 * 256) := (pow_mul 2 8 256).symm
      _ = 2 ^ 2048 := by rw [show 8 * 256 = 2048 from by norm_num]
  rw [h3] at h1
  exact h1

set_option maxRecDepth 4000 in
theorem group14_head :
    bignum_bin2bn p_group14_value
      = p_group14_value.tail.foldl (fun a b => a * 256 + b) 255 := rfl

theorem group14_ge_2 : 2 ≤ ssh_dh_group14 := by
  have h := foldl_acc_le p_group14_value.tail 255
  rw [ssh_dh_group14, group14_head]
  omega

theorem bignum_num_bits_le {n k : Nat} (h : n < 2 ^ k) :
    bignum_num_bits n ≤ k := by
  unfold bignum_num_bits
  split_ifs with h0
  · exact Nat.zero_le k
  · have h2 := (Nat.log2_lt h0).2 h
    omega

theorem xor_one_ne (n : Nat) : n ^^^ 1 ≠ n := by
  intro h
  have h3 : n ^^^ (n ^^^ 1) = n ^^^ n := by rw [h]
  rw [← Nat.xor_assoc, Nat.xor_self, Nat.zero_xor] at h3
  exact absurd h3 one_ne_zero

/-- C6: ssh_dh_is_known_group returns true exactly when the generator is 2
and the modulus equals the group constant selected by its bit length
(group14 below 3072 bits, group16 below 6144 bits, group18 otherwise); it
accepts (group14, 2), rejects generator 3, and rejects group14 with its
lowest bit flipped. -/
theorem C6_ssh_dh_is_known_group_spec :
    (∀ p g, ssh_dh_is_known_group p g = true ↔
      (g = 2 ∧ p = (if bignum_num_bits p < 3072 then ssh_dh_group14
        else if bignum_num_bits p < 6144 then ssh_dh_group16
        else ssh_dh_group18))) ∧
    ssh_dh_is_known_group ssh_dh_group14 2 = true ∧
    ssh_dh_is_known_group ssh_dh_group14 3 = false ∧
    ssh_dh_is_known_group (ssh_dh_group14 ^^^ 1) 2 = false := by
  have hbits14 : bignum_num_bits ssh_dh_group14 < 3072 :=
    lt_of_le_of_lt (bignum_num_bits_le group14_lt) (by norm_num)
  have hflip_lt : ssh_dh_group14 ^^^ 1 < 2 ^ 2048 :=
    Nat.xor_lt_two_pow group14_lt (Nat.one_lt_two_pow_iff.2 (by omega))
  have hbitsflip : bignum_num_bits (ssh_dh_group14 ^^^ 1) < 3072 :=
    lt_of_le_of_lt (bignum_num_bits_le hflip_lt) (by norm_num)
  have hiff : ∀ p g, ssh_dh_is_known_group p g = true ↔
      (g = 2 ∧ p = (if bignum_num_bits p < 3072 then ssh_dh_group14
        else if bignum_num_bits p < 6144 then ssh_dh_group16
        else ssh_dh_group18)) := by
    intro p g
    simp only [ssh_dh_is_known_group, ssh_dh_generator]
    set m := (if bignum_num_bits p < 3072 then ssh_dh_group14
      else if bignum_num_bits p < 6144 then ssh_dh_group16
      else ssh_dh_group18) with hm
    by_cases h1 : m ≠ p
    · rw [if_pos h1]
      simp only [Bool.false_eq_true, false_iff]
      rintro ⟨_, hp⟩
      exact h1 hp.symm
    · rw [if_neg h1]
      by_cases h2 : (2 : Nat) ≠ g
      · rw [if_pos h2]
        simp only [Bool.false_eq_true, false_iff]
        rintro ⟨hg, _⟩
        exact h2 hg.symm
      · rw [if_neg h2]
        rw [not_ne_iff] at h1 h2
        exact iff_of_true rfl ⟨h2.symm, h1.symm⟩
  refine ⟨hiff, ?_, ?_, ?_⟩
  · exact (hiff ssh_dh_group14 2).2 ⟨rfl, (if_pos hbits14).symm⟩
  · cases hval : ssh_dh_is_known_group ssh_dh_group14 3 with
    | false => rfl
    | true =>
        obtain ⟨h3, _⟩ := (hiff ssh_dh_group14 3).1 hval
        exact absurd h3 (by norm_num)
  · cases hval : ssh_dh_is_known_group (ssh_dh_group14 ^^^ 1) 2 with
    | false => rfl
    | true =>
        obtain ⟨_, hp⟩ := (hiff (ssh_dh_group14 ^^^ 1) 2).1 hval
        rw [if_pos hbitsflip] at hp
        exact absurd hp (xor_one_ne ssh_dh_group14)

/-- Counterexample for C7: when keypair generation fails, ssh_client_dh_init
returns SSH_ERROR and cleans up the DH context, but does not set the session
state to ERROR, contradicting the claim that it does. -/
theorem C7_counterexample_no_session_error :
    (ssh_client_dh_init true false true true true).rc = SSH_ERROR ∧
    (ssh_client_dh_init true false true true true).dhCleanup = true ∧
    (ssh_client_dh_init true false true true true).sessionErrorSet = false := by
  refine ⟨rfl, rfl, rfl⟩

/-- C7 (amended): if ssh_client_dh_init fails at DH context initialization,
keypair generation, public-key read or packet construction, it cleans up the
DH context and returns SSH_ERROR, and it leaves the session state unmodified
(in particular it does not set it to ERROR). -/
theorem C7_client_dh_init_error_handling
    (okInitCommon okGen okGet okPack okSend : Bool)
    (hfail : okInitCommon = false ∨ okGen = false ∨ okGet = false ∨
      okPack = false) :
    (ssh_client_dh_init okInitCommon okGen okGet okPack okSend).rc
        = SSH_ERROR ∧
    (ssh_client_dh_init okInitCommon okGen okGet okPack okSend).dhCleanup
        = true ∧
    (ssh_client_dh_init okInitCommon okGen okGet okPack okSend).sessionErrorSet
        = false := by
  cases okInitCommon <;> cases okGen <;> cases okGet <;> cases okPack <;>
    simp_all [ssh_client_dh_init]

/-- Witness for C7 (amended) at a failing first step. -/
theorem C7_client_dh_init_error_handling_witness :
    (ssh_client_dh_init false true true true true).rc = SSH_ERROR ∧
    (ssh_client_dh_init false true true true true).dhCleanup = true ∧
    (ssh_client_dh_init false true true true true).sessionErrorSet = false :=
  C7_client_dh_init_error_handling false true true true true (Or.inl rfl)

/-- Counterexample for C8: on the all-success path the handler removes the
reply callback as its very first action, before the shared secret is
computed, before NEWKEYS is emitted and before the state becomes
NEWKEYS_SENT, contradicting the claim that removal is step 6. -/
theorem C8_counterexample_removal_first :
    (ssh_packet_client_dh_reply true true true true true true).1
      = [ReplyEvent.removeCallbacks, ReplyEvent.unpack, ReplyEvent.setKeys,
         ReplyEvent.importPubkey, ReplyEvent.computeSecret,
         ReplyEvent.addNewkeys, ReplyEvent.sendPacket,
         ReplyEvent.setNewkeysSent] ∧
    ReplyEvent.removeCallbacks ∉
      ((ssh_packet_client_dh_reply true true true true true true).1.drop 1) := by
  refine ⟨rfl, ?_⟩
  decide

/-- C8 (amended): the reply callback is removed as the first action of the
handler, before the packet is even parsed, on every execution path, and it
is removed exactly once per invocation, so the callback remains single-shot;
the handler reports the packet as used on every path. -/
theorem C8_reply_callback_removed_first (okUnpack okSetKeys okImport
    okCompute okAdd okSend : Bool) :
    (ssh_packet_client_dh_reply okUnpack okSetKeys okImport okCompute okAdd
        okSend).1.head? = some ReplyEvent.removeCallbacks ∧
    (ssh_packet_client_dh_reply okUnpack okSetKeys okImport okCompute okAdd
        okSend).1.count ReplyEvent.removeCallbacks = 1 ∧
    (ssh_packet_client_dh_reply okUnpack okSetKeys okImport okCompute okAdd
        okSend).2 = true := by
  cases okUnpack <;> cases okSetKeys <;> cases okImport <;> cases okCompute <;>
    cases okAdd <;> cases okSend <;> decide

theorem getD_append_lt (l l2 : List Char) (d : Char) :
    ∀ i, i < l.length → (l ++ l2).getD i d = l.getD i d := by
  induction l with
  | nil => intro i h; simp at h
  | cons a l ih =>
      intro i h
      cases i with
      | zero => rfl
      | succ i =>
          simp only [List.cons_append, List.getD_cons_succ]
          exact ih i (by simpa using h)

theorem getD_append_length (l : List Char) (a d : Char) :
    (l ++ [a]).getD l.length d = a := by
  induction l with
  | nil => rfl
  | cons b l _ => simp

theorem stripLoop_append (l : List Char) (a : Char) :
    ∀ k, k ≤ l.length → stripLoop (l ++ [a]) k = stripLoop l k := by
  intro k
  induction k with
  | zero => intro _; rfl
  | succ k ih =>
      intro hk
      simp only [stripLoop]
      rw [getD_append_lt l [a] ' ' k (by omega)]
      by_cases hc : l.getD k ' ' = '='
      · rw [if_pos hc, if_pos hc, ih (by omega)]
      · rw [if_neg hc, if_neg hc]

theorem stripLoop_le (s : List Char) : ∀ k, stripLoop s k ≤ k := by
  intro k
  induction k with
  | zero => exact Nat.le_refl 0
  | succ k ih =>
      simp only [stripLoop]
      split
      · exact Nat.le_trans ih (Nat.le_succ k)
      · exact Nat.le_refl _

theorem dropTrailingEq_append_eq (s : List Char) :
    dropTrailingEq (s ++ ['=']) = dropTrailingEq s := by
  unfold dropTrailingEq
  rw [List.reverse_append]
  simp [List.dropWhile_cons]

theorem dropTrailingEq_append_ne (s : List Char) (a : Char) (ha : a ≠ '=') :
    dropTrailingEq (s ++ [a]) = s ++ [a] := by
  unfold dropTrailingEq
  rw [List.reverse_append]
  simp [List.dropWhile_cons, ha]

theorem stripLoop_take (s : List Char) :
    s.take (stripLoop s s.length) = dropTrailingEq s := by
  induction s using List.reverseRecOn with
  | nil => rfl
  | append_singleton s a ih =>
      have hlen : (s ++ [a]).length = s.length + 1 := by simp
      rw [hlen]
      simp only [stripLoop]
      rw [getD_append_length s a ' ']
      by_cases ha : a = '='
      · subst ha
        rw [if_pos rfl, stripLoop_append s '=' s.length (Nat.le_refl _)]
        rw [List.take_append_of_le_length (stripLoop_le s s.length)]
        rw [ih, dropTrailingEq_append_eq]
      · rw [if_neg ha, ← hlen, List.take_length]
        rw [dropTrailingEq_append_ne s a ha]

/-- C9: for the three known hash tags and successful allocations,
ssh_get_fingerprint_hash returns PREFIX, a colon, and the body: the standard
base64 encoding with all trailing = characters removed for SHA1 and SHA256,
and the lowercase colon-separated hex rendering for MD5; on any allocation
failure it returns the null analogue. -/
theorem C9_fingerprint_format (okB64 okStrndup okHexa okMalloc : Bool)
    (hash : List Nat) :
    (ssh_get_fingerprint_hash okB64 okStrndup okHexa okMalloc HashType.sha256
        hash
      = if okB64 && okStrndup && okMalloc then
          some (['S', 'H', 'A', '2', '5', '6']
            ++ ':' :: dropTrailingEq (bin_to_base64 hash))
        else none) ∧
    (ssh_get_fingerprint_hash okB64 okStrndup okHexa okMalloc HashType.sha1
        hash
      = if okB64 && okStrndup && okMalloc then
          some (['S', 'H', 'A', '1']
            ++ ':' :: dropTrailingEq (bin_to_base64 hash))
        else none) ∧
    (ssh_get_fingerprint_hash okB64 okStrndup okHexa okMalloc HashType.md5
        hash
      = if okHexa && okMalloc then
          some (['M', 'D', '5'] ++ ':' :: ssh_get_hexa hash)
        else none) := by
  cases okB64 <;> cases okStrndup <;> cases okHexa <;> cases okMalloc <;>
    simp [ssh_get_fingerprint_hash, ssh_get_b64_unpadded, pfxOf,
      stripLoop_take]

/-- C10: for a hash-type tag outside MD5, SHA1 and SHA256 the first switch of
ssh_get_fingerprint_hash leaves the body NULL and the function returns NULL,
so the internal UNKNOWN prefix never appears in a returned string: every
returned string starts with M or S, never U. -/
theorem C10_fingerprint_unknown_tag :
    (∀ (okB64 okStrndup okHexa okMalloc : Bool) (hash : List Nat),
      ssh_get_fingerprint_hash okB64 okStrndup okHexa okMalloc
        HashType.unknown hash = none) ∧
    (∀ (okB64 okStrndup okHexa okMalloc : Bool) (t : HashType)
        (hash : List Nat) (s : List Char),
      ssh_get_fingerprint_hash okB64 okStrndup okHexa okMalloc t hash
          = some s →
      s.head? ≠ some 'U') := by
  constructor
  · intro b1 b2 b3 b4 hash
    rfl
  · intro b1 b2 b3 b4 t hash s hsome
    cases t with
    | unknown => simp [ssh_get_fingerprint_hash] at hsome
    | md5 =>
        cases b3 <;> cases b4 <;>
          simp [ssh_get_fingerprint_hash, pfxOf] at hsome
        rw [← hsome]
        simp
    | sha1 =>
        rcases hb : ssh_get_b64_unpadded b1 b2 hash with _ | fp <;>
          cases b4 <;>
          simp [ssh_get_fingerprint_hash, pfxOf, hb] at hsome
        rw [← hsome]
        simp
    | sha256 =>
        rcases hb : ssh_get_b64_unpadded b1 b2 hash with _ | fp <;>
          cases b4 <;>
          simp [ssh_get_fingerprint_hash, pfxOf, hb] at hsome
        rw [← hsome]
        simp

end DH
